import Mathlib

/-!
Shallow embedding of the twitforget repository's retention-cache core
(`twitforget.py`, `likesforget.py`, `dmforget.py`).

A store is modelled as the list of rows of the SQLite table, in insertion
order.  Every SQL statement used by the code either aggregates over the
rows (`min`, `max`, `count`) or filters and sorts them by id, so the list
model with explicit sorting is faithful.  Dates are modelled as integers
(arrow timestamps are totally ordered); a NULL `created_at` is `none`,
and the `arrow.get` parse of a NULL value raises, which is modelled by
`Except`.  Python `TypeError`s (iterating `None`, `None - 1`,
`x in None`) are likewise modelled with explicit error results.
-/

namespace Twitforget

/-- One row of the `tweets` table: `(id, screen_name, created_at, content_text, deleted)`. -/
structure Row where
  id : Nat
  screen_name : String
  created_at : Option Int
  content_text : String
  deleted : Bool
deriving Repr, DecidableEq

abbrev Store := List Row

/-- SQL `min` aggregate over a list of ids; `none` when the list is empty (SQL NULL). -/
def listMin : List Nat → Option Nat
  | [] => none
  | x :: xs =>
    match listMin xs with
    | none => some x
    | some m => some (min x m)

/-- SQL `max` aggregate over a list of ids; `none` when the list is empty (SQL NULL). -/
def listMax : List Nat → Option Nat
  | [] => none
  | x :: xs =>
    match listMax xs with
    | none => some x
    | some m => some (max x m)

/-- One `INSERT OR IGNORE` of a row: skipped when a row with the same id exists. -/
def insertOrIgnore (store : Store) (row : Row) : Store :=
  if store.any (fun r => r.id == row.id) then store else store ++ [row]

/-- One element of the batch passed to `TweetCache.save_tweets`: a tweet dict with
`id`, `created_at` and either `full_text` or `text`. -/
structure TweetIn where
  id : Nat
  created_at : Option Int
  full_text : Option String
  text : String
deriving Repr, DecidableEq

/-- The tuple `save_tweets` appends to `valset` for one tweet: content comes from
`full_text` when that key is present, else from `text`; `deleted` is `False`. -/
def toRow (username : String) (t : TweetIn) : Row :=
  { id := t.id
    screen_name := username
    created_at := t.created_at
    content_text := match t.full_text with
      | some ft => ft
      | none => t.text
    deleted := false }

/-- `TweetCache.save_tweets`: bulk `INSERT OR IGNORE` of the batch, in order. -/
def save_tweets (store : Store) (username : String) (tweets : List TweetIn) : Store :=
  tweets.foldl (fun s t => insertOrIgnore s (toRow username t)) store

/-- `TweetCache.mark_deleted`: `UPDATE tweets SET deleted = True WHERE id = tweetid`. -/
def mark_deleted (store : Store) (tweetid : Nat) : Store :=
  store.map (fun r => if r.id = tweetid then { r with deleted := true } else r)

/-- The value of `SELECT min(id) FROM tweets WHERE deleted = False AND id NOT IN ignoreids`. -/
def minLive (store : Store) (ignoreids : List Nat) : Option Nat :=
  listMin ((store.filter (fun r => !r.deleted && !(ignoreids.contains r.id))).map (fun r => r.id))

/-- `TweetCache.get_min_id`.  With `undeleted=True` the code builds the `NOT IN`
list by iterating `ignoreids`; when `ignoreids` is `None` this raises a Python
`TypeError`, modelled as `Except.error`. -/
def get_min_id (store : Store) (undeleted : Bool) (ignoreids : Option (List Nat)) :
    Except Unit (Option Nat) :=
  if undeleted then
    match ignoreids with
    | none => .error ()
    | some ign => .ok (minLive store ign)
  else .ok (listMin (store.map (fun r => r.id)))

/-- `TweetCache.get_max_id`.  With `undeleted=True` the code runs
`SELECT max(id) FROM tweets WHERE deleted = ?` with parameter `True`, i.e. it
aggregates over the rows whose `deleted` flag is set. -/
def get_max_id (store : Store) (undeleted : Bool) : Option Nat :=
  if undeleted then listMax ((store.filter (fun r => r.deleted)).map (fun r => r.id))
  else listMax (store.map (fun r => r.id))

/-- Definition following the spec's words, for comparison with `get_max_id`:
the largest id among non-tombstoned rows, null if no such row exists. -/
def spec_max_id_live (store : Store) : Option Nat :=
  listMax ((store.filter (fun r => !r.deleted)).map (fun r => r.id))

/-- Result of one remote `statuses/destroy` call: success, or an HTTP error
carrying the list of Twitter error codes of the response. -/
inductive DeleteResult
  | ok
  | httpError (codes : List Nat)
deriving Repr, DecidableEq

/-- The error codes the destroy loop recovers from: 144 (not found),
179 (not authorized), 34 (page does not exist), 63 (user suspended). -/
def recoverableCode (c : Nat) : Bool :=
  c == 144 || c == 179 || c == 34 || c == 63

/-- How the destroy loop halts: a Python `TypeError` from `twt['id'] in None`,
or an unhandled Twitter error re-raised by the bare `raise`. -/
inductive LoopHalt
  | typeError
  | fatal (id : Nat) (codes : List Nat)
deriving Repr, DecidableEq

/-- `destroy_tweets`: iterate the destroy set; skip keep-listed ids; unless in
dry-run mode call the remote delete and tombstone on success; classify HTTP
errors, tombstoning and continuing on a single recoverable code, re-raising
otherwise.  Returns the list of ids for which a remote call was issued, and
either the final store or the halt reason paired with the store at the halt. -/
def destroy_tweets (remote : Nat → DeleteResult) (keeplist : Option (List Nat)) (dryrun : Bool) :
    List Row → Store → List Nat × Except (LoopHalt × Store) Store
  | [], cache => ([], .ok cache)
  | twt :: rest, cache =>
    match keeplist with
    | none => ([], .error (.typeError, cache))
    | some kl =>
      if twt.id ∈ kl then destroy_tweets remote keeplist dryrun rest cache
      else if dryrun then destroy_tweets remote keeplist dryrun rest cache
      else
        match remote twt.id with
        | .ok =>
          (twt.id :: (destroy_tweets remote keeplist dryrun rest (mark_deleted cache twt.id)).1,
            (destroy_tweets remote keeplist dryrun rest (mark_deleted cache twt.id)).2)
        | .httpError codes =>
          match codes with
          | [c] =>
            if recoverableCode c then
              (twt.id :: (destroy_tweets remote keeplist dryrun rest (mark_deleted cache twt.id)).1,
                (destroy_tweets remote keeplist dryrun rest (mark_deleted cache twt.id)).2)
            else ([twt.id], .error (.fatal twt.id codes, cache))
          | _ => ([twt.id], .error (.fatal twt.id codes, cache))

/-- Row comparison used by `ORDER BY id ASC`. -/
def rowLe (a b : Row) : Prop := a.id ≤ b.id

instance : DecidableRel rowLe := fun a b => Nat.decLe a.id b.id

instance : IsTotal Row rowLe := ⟨fun a b => Nat.le_total a.id b.id⟩

instance : IsTrans Row rowLe := ⟨fun _ _ _ h1 h2 => Nat.le_trans h1 h2⟩

/-- The row sequence produced by `ORDER BY id ASC`. -/
def sqlSort (store : Store) : List Row := List.insertionSort rowLe store

/-- The id list produced by `SELECT id FROM tweets ORDER BY id DESC LIMIT keepnum`. -/
def topIds (store : Store) (keepnum : Nat) : List Nat :=
  (((sqlSort store).reverse).take keepnum).map (fun r => r.id)

/-- `TweetCache.get_destroy_set_keepnum`: rows whose id is not among the
`keepnum` largest ids, not tombstoned, ascending by id, with the optional
SQL `LIMIT deletemax`. -/
def get_destroy_set_keepnum (store : Store) (keepnum : Nat) (deletemax : Option Nat) :
    List Row :=
  let base := (sqlSort store).filter
    (fun r => !((topIds store keepnum).contains r.id) && !r.deleted)
  match deletemax with
  | none => base
  | some d => base.take d

/-- Python truthiness test `if deletemax and i+1 >= deletemax` that guards the
`break` of the date-based destroy-set loops: `None` and `0` are falsy. -/
def dmaxBreak (deletemax : Option Nat) (i : Nat) : Bool :=
  match deletemax with
  | none => false
  | some d => !(d == 0) && decide (i + 1 ≥ d)

/-- Loop body of `get_destroy_set_dates` in `twitforget.py` over the rows
returned by the SQL query, carrying the `enumerate` index.  The date of each
scanned row is parsed before the break test; a NULL `created_at` makes
`arrow.get` raise, modelled as `Except.error`. -/
def tweets_dates_loop (date_before : Int) (date_after : Option Int) (deletemax : Option Nat) :
    List Row → Nat → Except Unit (List Row)
  | [], _ => .ok []
  | r :: rest, i =>
    match r.created_at with
    | none => .error ()
    | some d =>
      let acc : List Row :=
        if d < date_before then
          match date_after with
          | some a => if a < d then [r] else []
          | none => [r]
        else []
      if dmaxBreak deletemax i then .ok acc
      else
        match tweets_dates_loop date_before date_after deletemax rest (i + 1) with
        | .error e => .error e
        | .ok tl => .ok (acc ++ tl)

/-- `TweetCache.get_destroy_set_dates` of `twitforget.py`: the SQL query filters
only on `deleted IS NOT True` (it has no `created_at IS NOT NULL` clause), then
the Python loop selects rows dated before `date_before` (and after `date_after`
when it is set). -/
def get_destroy_set_dates (store : Store) (date_before : Int) (date_after : Option Int)
    (deletemax : Option Nat) : Except Unit (List Row) :=
  tweets_dates_loop date_before date_after deletemax
    ((sqlSort store).filter (fun r => !r.deleted)) 0

/-- Loop body of `get_destroy_set_beforedays` in `twitforget.py`. -/
def tweets_beforedays_loop (beforedate : Int) (deletemax : Option Nat) :
    List Row → Nat → Except Unit (List Row)
  | [], _ => .ok []
  | r :: rest, i =>
    match r.created_at with
    | none => .error ()
    | some d =>
      let acc : List Row := if d < beforedate then [r] else []
      if dmaxBreak deletemax i then .ok acc
      else
        match tweets_beforedays_loop beforedate deletemax rest (i + 1) with
        | .error e => .error e
        | .ok tl => .ok (acc ++ tl)

/-- `TweetCache.get_destroy_set_beforedays` of `twitforget.py`: `beforedate` is
`arrow.now().shift(days=-beforedays)`, modelled with `now` as a parameter. -/
def get_destroy_set_beforedays (store : Store) (now beforedays : Int) (deletemax : Option Nat) :
    Except Unit (List Row) :=
  tweets_beforedays_loop (now - beforedays) deletemax
    ((sqlSort store).filter (fun r => !r.deleted)) 0

/-- Outcome of the fetch-older loop: the final store, or a Python `TypeError`
(from `None - 1`, or from `get_min_id` iterating a `None` keeplist). -/
inductive FetchOut
  | done (s : Store)
  | crash
deriving Repr, DecidableEq

/-- `get_old_tweets`, fuel-indexed: `none` means the fuel ran out before the
loop stopped.  `remote i b` is the page returned by the `i`-th
`statuses/user_timeline` call, with `b` the `max_id` bound (`none` on the
first-fill fetch of an empty cache).  `known` is `known_min_id`: the loop
breaks when the freshly computed `get_min_id` equals it, and otherwise
fetches below `min_id - 1` and saves the page, stopping on an empty page. -/
def get_old_tweets_fuel (remote : Nat → Option Int → List TweetIn) (username : String)
    (keeplist : Option (List Nat)) :
    Nat → Nat → Store → Option Nat → Option FetchOut
  | 0, _, _, _ => none
  | fuel + 1, i, cache, known =>
    if cache.length = 0 then
      let page := remote i none
      if page = [] then some (.done cache)
      else get_old_tweets_fuel remote username keeplist fuel (i + 1)
        (save_tweets cache username page) known
    else
      match get_min_id cache true keeplist with
      | .error _ => some .crash
      | .ok m =>
        if known = m then some (.done cache)
        else
          match m with
          | none => some .crash
          | some mv =>
            let page := remote i (some ((mv : Int) - 1))
            if page = [] then some (.done cache)
            else get_old_tweets_fuel remote username keeplist fuel (i + 1)
              (save_tweets cache username page) (some mv)

end Twitforget

namespace Dmforget

/-- One row of the `dms` table of `dmforget.py`. -/
structure DmRow where
  id : Nat
  screen_name : String
  created_at : Option Int
  conversation_id : Option String
  sender_id : Nat
  recipient_id : Nat
  content_text : String
  deleted : Bool
deriving Repr, DecidableEq

abbrev DmStore := List DmRow

/-- Row comparison used by `ORDER BY id ASC` on the `dms` table. -/
def dmRowLe (a b : DmRow) : Prop := a.id ≤ b.id

instance : DecidableRel dmRowLe := fun a b => Nat.decLe a.id b.id

instance : IsTotal DmRow dmRowLe := ⟨fun a b => Nat.le_total a.id b.id⟩

instance : IsTrans DmRow dmRowLe := ⟨fun _ _ _ h1 h2 => Nat.le_trans h1 h2⟩

/-- The row sequence produced by `ORDER BY id ASC` on the `dms` table. -/
def dmSort (store : DmStore) : List DmRow := List.insertionSort dmRowLe store

/-- `TweetCache.mark_deleted` of `dmforget.py`. -/
def dm_mark_deleted (store : DmStore) (tweetid : Nat) : DmStore :=
  store.map (fun r => if r.id = tweetid then { r with deleted := true } else r)

/-- The id list of `SELECT id FROM dms ORDER BY id DESC LIMIT keepnum`. -/
def dmTopIds (store : DmStore) (keepnum : Nat) : List Nat :=
  (((dmSort store).reverse).take keepnum).map (fun r => r.id)

/-- `TweetCache.get_destroy_set_keepnum` of `dmforget.py`. -/
def get_destroy_set_keepnum (store : DmStore) (keepnum : Nat) (deletemax : Option Nat) :
    List DmRow :=
  let base := (dmSort store).filter
    (fun r => !((dmTopIds store keepnum).contains r.id) && !r.deleted)
  match deletemax with
  | none => base
  | some d => base.take d

/-- `TweetCache.get_destroy_nodate` of `dmforget.py`: rows with NULL
`created_at`, not tombstoned, ascending, with the optional `LIMIT`.  The
`keepnum` parameter is accepted but never used by the query. -/
def get_destroy_nodate (store : DmStore) (keepnum : Option Nat) (deletemax : Option Nat) :
    List DmRow :=
  let base := (dmSort store).filter (fun r => r.created_at.isNone && !r.deleted)
  match deletemax with
  | none => base
  | some d => base.take d

/-- Loop body of `get_destroy_set_dates` in `dmforget.py`.  The SQL query has
already excluded NULL dates; a NULL scanned here would still raise in
`arrow.get`, modelled as `Except.error`. -/
def dm_dates_loop (date_before : Int) (date_after : Option Int) (deletemax : Option Nat) :
    List DmRow → Nat → Except Unit (List DmRow)
  | [], _ => .ok []
  | r :: rest, i =>
    match r.created_at with
    | none => .error ()
    | some d =>
      let acc : List DmRow :=
        if d < date_before then
          match date_after with
          | some a => if a < d then [r] else []
          | none => [r]
        else []
      if Twitforget.dmaxBreak deletemax i then .ok acc
      else
        match dm_dates_loop date_before date_after deletemax rest (i + 1) with
        | .error e => .error e
        | .ok tl => .ok (acc ++ tl)

/-- `TweetCache.get_destroy_set_dates` of `dmforget.py`: unlike the posts
variant, the SQL query requires `created_at IS NOT NULL`. -/
def get_destroy_set_dates (store : DmStore) (date_before : Int) (date_after : Option Int)
    (deletemax : Option Nat) : Except Unit (List DmRow) :=
  dm_dates_loop date_before date_after deletemax
    ((dmSort store).filter (fun r => !r.deleted && r.created_at.isSome)) 0

/-- Loop body of `get_destroy_set_beforedays` in `dmforget.py`. -/
def dm_beforedays_loop (beforedate : Int) (deletemax : Option Nat) :
    List DmRow → Nat → Except Unit (List DmRow)
  | [], _ => .ok []
  | r :: rest, i =>
    match r.created_at with
    | none => .error ()
    | some d =>
      let acc : List DmRow := if d < beforedate then [r] else []
      if Twitforget.dmaxBreak deletemax i then .ok acc
      else
        match dm_beforedays_loop beforedate deletemax rest (i + 1) with
        | .error e => .error e
        | .ok tl => .ok (acc ++ tl)

/-- `TweetCache.get_destroy_set_beforedays` of `dmforget.py`: the SQL query
requires `created_at IS NOT NULL`. -/
def get_destroy_set_beforedays (store : DmStore) (now beforedays : Int)
    (deletemax : Option Nat) : Except Unit (List DmRow) :=
  dm_beforedays_loop (now - beforedays) deletemax
    ((dmSort store).filter (fun r => !r.deleted && r.created_at.isSome)) 0

/-- Result of `get_destroy_set` of `dmforget.py`: a destroy set, or an
exception raised by the date parsing inside a policy query. -/
inductive DestroySetResult
  | rows (l : List DmRow)
  | raised
deriving Repr, DecidableEq

/-- `get_destroy_set` of `dmforget.py`: policy priority is no-date, then
date-range, then before-days, then keep-count.  The no-date branch calls
`get_destroy_nodate(args.deletemax)`, i.e. it passes the cap as the unused
`keepnum` positional argument and leaves the function's own `deletemax`
at its default `None`. -/
def get_destroy_set (store : DmStore) (delete_nodate : Bool) (date_before : Option Int)
    (date_after : Option Int) (beforedays : Option Int) (keepnum : Nat)
    (deletemax : Option Nat) (now : Int) : DestroySetResult :=
  if delete_nodate then .rows (get_destroy_nodate store deletemax none)
  else
    match date_before with
    | some db =>
      match get_destroy_set_dates store db date_after deletemax with
      | .ok l => .rows l
      | .error _ => .raised
    | none =>
      match beforedays with
      | some bd =>
        match get_destroy_set_beforedays store now bd deletemax with
        | .ok l => .rows l
        | .error _ => .raised
      | none => .rows (get_destroy_set_keepnum store keepnum deletemax)

/-- The keep-list membership test of `destroy_dms`:
`args.keeplist is not None and item['id'] in args.keeplist`. -/
def klMem (keeplist : Option (List Nat)) (i : Nat) : Bool :=
  match keeplist with
  | none => false
  | some l => l.contains i

/-- `destroy_dms`: like the posts destroy loop, but items whose `sender_id` is
not the authenticated user's id are tombstoned locally (unless in dry-run)
without any remote call, and the keep-list test is `None`-safe.  Returns the
ids for which a remote delete call was issued, and either the final store or
the offending id, error codes and store at the halt. -/
def destroy_dms (remote : Nat → Twitforget.DeleteResult) (keeplist : Option (List Nat))
    (dryrun : Bool) (userid : Nat) :
    List DmRow → DmStore → List Nat × Except (Nat × List Nat × DmStore) DmStore
  | [], cache => ([], .ok cache)
  | item :: rest, cache =>
    if klMem keeplist item.id then destroy_dms remote keeplist dryrun userid rest cache
    else if item.sender_id ≠ userid then
      destroy_dms remote keeplist dryrun userid rest
        (if dryrun then cache else dm_mark_deleted cache item.id)
    else if dryrun then destroy_dms remote keeplist dryrun userid rest cache
    else
      match remote item.id with
      | .ok =>
        (item.id :: (destroy_dms remote keeplist dryrun userid rest
            (dm_mark_deleted cache item.id)).1,
          (destroy_dms remote keeplist dryrun userid rest (dm_mark_deleted cache item.id)).2)
      | .httpError codes =>
        match codes with
        | [c] =>
          if Twitforget.recoverableCode c then
            (item.id :: (destroy_dms remote keeplist dryrun userid rest
                (dm_mark_deleted cache item.id)).1,
              (destroy_dms remote keeplist dryrun userid rest
                (dm_mark_deleted cache item.id)).2)
          else ([item.id], .error (item.id, codes, cache))
        | _ => ([item.id], .error (item.id, codes, cache))

end Dmforget

section ConcreteInputs

/-- Concrete tweet row builder used by the concrete instances below. -/
def mkRow (i : Nat) (d : Option Int) (del : Bool) : Twitforget.Row :=
  { id := i, screen_name := "user", created_at := d, content_text := "text", deleted := del }

/-- Concrete dm row builder used by the concrete instances below. -/
def mkDmRow (i : Nat) (d : Option Int) (sender : Nat) (del : Bool) : Dmforget.DmRow :=
  { id := i, screen_name := "user", created_at := d, conversation_id := none,
    sender_id := sender, recipient_id := 99, content_text := "text", deleted := del }

/-- Store with a live row (id 1) and a tombstoned row (id 2). -/
def c1Store : Twitforget.Store := [mkRow 1 (some 0) false, mkRow 2 (some 0) true]

/-- Dm store with two live rows whose `created_at` is NULL. -/
def c2DmStore : Dmforget.DmStore := [mkDmRow 1 none 5 false, mkDmRow 2 none 5 false]

/-- Tweet store with two live rows dated 0. -/
def c2TweetStore : Twitforget.Store := [mkRow 1 (some 0) false, mkRow 2 (some 0) false]

/-- Tweet store with a single live row whose `created_at` is NULL. -/
def c5Store : Twitforget.Store := [mkRow 1 none false]

/-- Tweet store with live rows of ids 1..5. -/
def c6Store : Twitforget.Store :=
  [mkRow 1 (some 10) false, mkRow 2 (some 20) false, mkRow 3 (some 30) false,
    mkRow 4 (some 40) false, mkRow 5 (some 50) false]

/-- Remote delete capability that always fails with the unrecognized code 131. -/
def remoteFatal : Nat → Twitforget.DeleteResult := fun _ => .httpError [131]

/-- Remote delete capability that always fails with the not-found code 144. -/
def remoteNotFound : Nat → Twitforget.DeleteResult := fun _ => .httpError [144]

/-- Remote timeline capability that always returns an empty page. -/
def remoteEmptyPages : Nat → Option Int → List Twitforget.TweetIn := fun _ _ => []

/-- A row with the same id as `mkRow 7 _ _` but different payload and flags. -/
def dupRow : Twitforget.Row :=
  { id := 7, screen_name := "user2", created_at := some 5, content_text := "other",
    deleted := false }

end ConcreteInputs

/-- C1: for every store state, `max_id` with `exclude_tombstoned=true` should
return the largest id among non-tombstoned rows, never reflecting tombstoned
rows.  The code instead filters `WHERE deleted = True`: on a store with live
row 1 and tombstoned row 2 it returns the tombstoned id 2, while the largest
live id is 1. -/
theorem c1_max_id_undeleted_counts_only_tombstoned :
    Twitforget.get_max_id c1Store true = some 2
    ∧ Twitforget.spec_max_id_live c1Store = some 1 := by
  exact ⟨rfl, rfl⟩

/-- C2: a supplied `deletemax` cap should bound every policy's destroy set and
`deletemax = 0` should yield an empty set.  In the no-date policy the caller
passes the cap as the unused `keepnum` positional argument, so `deletemax=1`
still returns both eligible rows; and the before-days loop treats
`deletemax=0` as falsy, returning both eligible rows instead of none. -/
theorem c2_deletemax_cap_violations :
    Dmforget.get_destroy_set c2DmStore true none none none 500 (some 1) 0
      = .rows [mkDmRow 1 none 5 false, mkDmRow 2 none 5 false]
    ∧ Twitforget.get_destroy_set_beforedays c2TweetStore 100 1 (some 0)
      = .ok [mkRow 1 (some 0) false, mkRow 2 (some 0) false] := by
  exact ⟨rfl, rfl⟩

/-- C10: in the posts variant, a null keep-list is not an empty ignore-set:
`get_min_id` with `undeleted=True` and `ignoreids=None` raises a `TypeError`
for every store, and the destroy loop's `twt['id'] in args.keeplist` test
raises immediately on a non-empty destroy set when the keep-list is `None`,
before any remote call or tombstone. -/
theorem c10_null_keeplist_raises :
    (∀ store : Twitforget.Store, Twitforget.get_min_id store true none = .error ())
    ∧ (∀ (remote : Nat → Twitforget.DeleteResult) (dryrun : Bool) (twt : Twitforget.Row)
        (rest : List Twitforget.Row) (cache : Twitforget.Store),
        Twitforget.destroy_tweets remote none dryrun (twt :: rest) cache
          = ([], .error (.typeError, cache))) := by
  constructor
  · intro store; rfl
  · intro remote dryrun twt rest cache; rfl

namespace Twitforget

theorem mem_insertOrIgnore_of_mem {store : Store} {row r : Row} (h : r ∈ store) :
    r ∈ insertOrIgnore store row := by
  unfold insertOrIgnore
  split
  · exact h
  · exact List.mem_append_left _ h

theorem insertOrIgnore_of_exists {store : Store} {row : Row}
    (h : ∃ r ∈ store, r.id = row.id) : insertOrIgnore store row = store := by
  rcases h with ⟨r, hr, hid⟩
  unfold insertOrIgnore
  rw [if_pos]
  exact List.any_eq_true.mpr ⟨r, hr, by simp [hid]⟩

theorem exists_id_insertOrIgnore (store : Store) (row : Row) :
    ∃ r ∈ insertOrIgnore store row, r.id = row.id := by
  unfold insertOrIgnore
  split
  · next hany =>
    rcases List.any_eq_true.mp hany with ⟨r, hr, he⟩
    exact ⟨r, hr, by simpa using he⟩
  · exact ⟨row, List.mem_append_right _ (by simp), rfl⟩

theorem exists_id_save_of_exists {username : String} {n : Nat} :
    ∀ (tweets : List TweetIn) (store : Store),
      (∃ r ∈ store, r.id = n) → ∃ r ∈ save_tweets store username tweets, r.id = n := by
  intro tweets
  induction tweets with
  | nil => intro store h; exact h
  | cons t ts ih =>
    intro store h
    rcases h with ⟨r, hr, hid⟩
    exact ih _ ⟨r, mem_insertOrIgnore_of_mem hr, hid⟩

theorem exists_id_save {username : String} :
    ∀ (tweets : List TweetIn) (store : Store) (t : TweetIn), t ∈ tweets →
      ∃ r ∈ save_tweets store username tweets, r.id = t.id := by
  intro tweets
  induction tweets with
  | nil => intro store t ht; cases ht
  | cons u ts ih =>
    intro store t ht
    rcases List.mem_cons.mp ht with rfl | ht'
    · exact exists_id_save_of_exists ts _ (exists_id_insertOrIgnore store (toRow username t))
    · exact ih _ t ht'

theorem save_tweets_noop {username : String} :
    ∀ (tweets : List TweetIn) (store : Store),
      (∀ t ∈ tweets, ∃ r ∈ store, r.id = t.id) → save_tweets store username tweets = store := by
  intro tweets
  induction tweets with
  | nil => intro store _; rfl
  | cons t ts ih =>
    intro store h
    have hins : insertOrIgnore store (toRow username t) = store :=
      insertOrIgnore_of_exists (h t (List.mem_cons_self t ts))
    show save_tweets (insertOrIgnore store (toRow username t)) username ts = store
    rw [hins]
    exact ih store (fun u hu => h u (List.mem_cons_of_mem t hu))

end Twitforget

/-- C9: `insert_or_ignore` is idempotent per id: inserting a row whose id
already exists leaves the store unchanged (first write wins, including the
tombstone flag, since the existing rows are untouched), and re-running the
same `save_tweets` batch a second time yields exactly the store produced by
the first run. -/
theorem c9_insert_idempotent :
    (∀ (store : Twitforget.Store) (row : Twitforget.Row),
        (∃ r ∈ store, r.id = row.id) → Twitforget.insertOrIgnore store row = store)
    ∧ (∀ (store : Twitforget.Store) (username : String) (tweets : List Twitforget.TweetIn),
        Twitforget.save_tweets (Twitforget.save_tweets store username tweets) username tweets
          = Twitforget.save_tweets store username tweets) := by
  constructor
  · intro store row h
    exact Twitforget.insertOrIgnore_of_exists h
  · intro store username tweets
    exact Twitforget.save_tweets_noop tweets _
      (fun t ht => Twitforget.exists_id_save tweets store t ht)

/-- C9 witness: re-inserting id 7 over an existing tombstoned row with id 7
leaves the store unchanged, keeping the first row's payload and tombstone. -/
theorem c9_insert_idempotent_witness :
    (∃ r ∈ [mkRow 7 (some 0) true], r.id = dupRow.id)
    ∧ Twitforget.insertOrIgnore [mkRow 7 (some 0) true] dupRow = [mkRow 7 (some 0) true] :=
  ⟨by decide, c9_insert_idempotent.1 [mkRow 7 (some 0) true] dupRow (by decide)⟩

namespace Twitforget

theorem mark_deleted_sets_flag (cache : Store) (tid : Nat) :
    ∀ r ∈ mark_deleted cache tid, r.id = tid → r.deleted = true := by
  intro r hr hid
  rcases List.mem_map.mp hr with ⟨r0, _, rfl⟩
  by_cases h : r0.id = tid
  · simp [h]
  · rw [if_neg h] at hid ⊢
    exact absurd hid h

theorem destroy_step_none (remote : Nat → DeleteResult) (dryrun : Bool) (twt : Row)
    (rest : List Row) (cache : Store) :
    destroy_tweets remote none dryrun (twt :: rest) cache
      = ([], .error (.typeError, cache)) := rfl

theorem destroy_step_skip (remote : Nat → DeleteResult) (l : List Nat) (dryrun : Bool)
    (twt : Row) (rest : List Row) (cache : Store) (h : twt.id ∈ l) :
    destroy_tweets remote (some l) dryrun (twt :: rest) cache
      = destroy_tweets remote (some l) dryrun rest cache := by
  simp [destroy_tweets, h]

theorem destroy_step_dry (remote : Nat → DeleteResult) (l : List Nat) (twt : Row)
    (rest : List Row) (cache : Store) :
    destroy_tweets remote (some l) true (twt :: rest) cache
      = destroy_tweets remote (some l) true rest cache := by
  by_cases h : twt.id ∈ l <;> simp [destroy_tweets, h]

theorem destroy_step_ok (remote : Nat → DeleteResult) (l : List Nat) (twt : Row)
    (rest : List Row) (cache : Store) (hmem : twt.id ∉ l) (hrem : remote twt.id = .ok) :
    destroy_tweets remote (some l) false (twt :: rest) cache
      = (twt.id :: (destroy_tweets remote (some l) false rest (mark_deleted cache twt.id)).1,
         (destroy_tweets remote (some l) false rest (mark_deleted cache twt.id)).2) := by
  simp [destroy_tweets, hmem, hrem]

theorem destroy_step_recov (remote : Nat → DeleteResult) (l : List Nat) (twt : Row)
    (rest : List Row) (cache : Store) (c : Nat) (hmem : twt.id ∉ l)
    (hrem : remote twt.id = .httpError [c]) (hrec : recoverableCode c = true) :
    destroy_tweets remote (some l) false (twt :: rest) cache
      = (twt.id :: (destroy_tweets remote (some l) false rest (mark_deleted cache twt.id)).1,
         (destroy_tweets remote (some l) false rest (mark_deleted cache twt.id)).2) := by
  simp [destroy_tweets, hmem, hrem, hrec]

theorem destroy_step_fatal (remote : Nat → DeleteResult) (l : List Nat) (twt : Row)
    (rest : List Row) (cache : Store) (codes : List Nat) (hmem : twt.id ∉ l)
    (hrem : remote twt.id = .httpError codes)
    (hfatal : ∀ c, codes = [c] → recoverableCode c = false) :
    destroy_tweets remote (some l) false (twt :: rest) cache
      = ([twt.id], .error (.fatal twt.id codes, cache)) := by
  rcases codes with _ | ⟨c, _ | ⟨c2, ctl⟩⟩
  · simp [destroy_tweets, hmem, hrem]
  · have hrec : recoverableCode c = false := hfatal c rfl
    simp [destroy_tweets, hmem, hrem, hrec]
  · simp [destroy_tweets, hmem, hrem]

theorem destroy_tweets_append (remote : Nat → DeleteResult) (kl : Option (List Nat))
    (dryrun : Bool) :
    ∀ (pre rest : List Row) (cache s : Store) (cs : List Nat),
      destroy_tweets remote kl dryrun pre cache = (cs, .ok s) →
      destroy_tweets remote kl dryrun (pre ++ rest) cache
        = (cs ++ (destroy_tweets remote kl dryrun rest s).1,
           (destroy_tweets remote kl dryrun rest s).2) := by
  intro pre
  induction pre with
  | nil =>
    intro rest cache s cs h
    rw [show destroy_tweets remote kl dryrun [] cache = ([], .ok cache) from rfl,
      Prod.mk.injEq] at h
    obtain ⟨h1, h2⟩ := h
    injection h2 with h2
    subst h2
    subst h1
    simp only [List.nil_append]
  | cons twt pre' ih =>
    intro rest cache s cs h
    rw [List.cons_append]
    cases kl with
    | none =>
      rw [destroy_step_none, Prod.mk.injEq] at h
      exact absurd h.2 (by simp)
    | some l =>
      by_cases hmem : twt.id ∈ l
      · rw [destroy_step_skip remote l dryrun twt pre' cache hmem] at h
        rw [destroy_step_skip remote l dryrun twt (pre' ++ rest) cache hmem]
        exact ih rest cache s cs h
      · cases dryrun with
        | true =>
          rw [destroy_step_dry remote l twt pre' cache] at h
          rw [destroy_step_dry remote l twt (pre' ++ rest) cache]
          exact ih rest cache s cs h
        | false =>
          cases hrem : remote twt.id with
          | ok =>
            rw [destroy_step_ok remote l twt pre' cache hmem hrem, Prod.mk.injEq] at h
            obtain ⟨h1, h2⟩ := h
            have hA : destroy_tweets remote (some l) false pre' (mark_deleted cache twt.id)
                = ((destroy_tweets remote (some l) false pre' (mark_deleted cache twt.id)).1,
                  .ok s) := by
              rw [← h2]
            rw [destroy_step_ok remote l twt (pre' ++ rest) cache hmem hrem,
              ih rest (mark_deleted cache twt.id) s _ hA, ← h1]
            simp
          | httpError codes =>
            rcases codes with _ | ⟨c, _ | ⟨c2, ctl⟩⟩
            · rw [destroy_step_fatal remote l twt pre' cache [] hmem hrem
                  (by intro c hc; simp at hc), Prod.mk.injEq] at h
              exact absurd h.2 (by simp)
            · by_cases hrec : recoverableCode c = true
              · rw [destroy_step_recov remote l twt pre' cache c hmem hrem hrec,
                  Prod.mk.injEq] at h
                obtain ⟨h1, h2⟩ := h
                have hA : destroy_tweets remote (some l) false pre' (mark_deleted cache twt.id)
                    = ((destroy_tweets remote (some l) false pre'
                        (mark_deleted cache twt.id)).1, .ok s) := by
                  rw [← h2]
                rw [destroy_step_recov remote l twt (pre' ++ rest) cache c hmem hrem hrec,
                  ih rest (mark_deleted cache twt.id) s _ hA, ← h1]
                simp
              · have hrec' : recoverableCode c = false := by
                  cases hcc : recoverableCode c
                  · rfl
                  · exact absurd hcc hrec
                rw [destroy_step_fatal remote l twt pre' cache [c] hmem hrem
                    (by intro c' hc'; injection hc' with hc''; subst hc''; exact hrec'),
                  Prod.mk.injEq] at h
                exact absurd h.2 (by simp)
            · rw [destroy_step_fatal remote l twt pre' cache (c :: c2 :: ctl) hmem hrem
                  (by intro c' hc'; simp at hc'), Prod.mk.injEq] at h
              exact absurd h.2 (by simp)

theorem destroy_tweets_ok_of_recoverable (remote : Nat → DeleteResult) (l : List Nat)
    (dryrun : Bool) :
    ∀ (items : List Row) (cache : Store),
      (∀ r ∈ items, remote r.id = .ok
          ∨ ∃ c, remote r.id = .httpError [c] ∧ recoverableCode c = true) →
      ∃ s, (destroy_tweets remote (some l) dryrun items cache).2 = .ok s := by
  intro items
  induction items with
  | nil => intro cache _; exact ⟨cache, rfl⟩
  | cons twt rest ih =>
    intro cache h
    have hrest : ∀ r ∈ rest, remote r.id = .ok
        ∨ ∃ c, remote r.id = .httpError [c] ∧ recoverableCode c = true :=
      fun r hr => h r (List.mem_cons_of_mem twt hr)
    by_cases hmem : twt.id ∈ l
    · rw [destroy_step_skip remote l dryrun twt rest cache hmem]
      exact ih cache hrest
    · cases dryrun with
      | true =>
        rw [destroy_step_dry remote l twt rest cache]
        exact ih cache hrest
      | false =>
        rcases h twt (List.mem_cons_self twt rest) with hok | ⟨c, herr, hrec⟩
        · rw [destroy_step_ok remote l twt rest cache hmem hok]
          exact ih (mark_deleted cache twt.id) hrest
        · rw [destroy_step_recov remote l twt rest cache c hmem herr hrec]
          exact ih (mark_deleted cache twt.id) hrest

end Twitforget

/-- C3: if processing the destroy set reaches an item (after a prefix that
completed normally, with the item not keep-listed and dry-run off) and the
remote delete for it fails with codes that are not a single recoverable code
(144, 179, 34, 63), the loop halts there: the error and the offending codes
are surfaced, the store stays exactly the prefix store (the failing item is
not tombstoned and no later item's row is touched), and the call log ends
with the failing call (no later item of the destroy set is processed). -/
theorem c3_unrecognized_error_halts_loop (remote : Nat → Twitforget.DeleteResult)
    (l : List Nat) (pre : List Twitforget.Row) (twt : Twitforget.Row)
    (post : List Twitforget.Row) (cache s : Twitforget.Store) (cs : List Nat)
    (codes : List Nat)
    (hpre : Twitforget.destroy_tweets remote (some l) false pre cache = (cs, .ok s))
    (hkl : twt.id ∉ l)
    (herr : remote twt.id = .httpError codes)
    (hfatal : ∀ c, codes = [c] → Twitforget.recoverableCode c = false) :
    Twitforget.destroy_tweets remote (some l) false (pre ++ twt :: post) cache
      = (cs ++ [twt.id], .error (.fatal twt.id codes, s)) := by
  rw [Twitforget.destroy_tweets_append remote (some l) false pre (twt :: post) cache s cs hpre,
    Twitforget.destroy_step_fatal remote l twt post s codes hkl herr hfatal]

/-- C3 witness: with a remote that fails with the unrecognized code 131, a
one-item destroy set halts at that item with the error surfaced, the store
unchanged, and that single call the only call issued. -/
theorem c3_unrecognized_error_halts_loop_witness :
    Twitforget.destroy_tweets remoteFatal (some []) false [mkRow 7 (some 0) false]
        [mkRow 7 (some 0) false]
      = ([7], .error (.fatal 7 [131], [mkRow 7 (some 0) false])) :=
  c3_unrecognized_error_halts_loop remoteFatal [] [] (mkRow 7 (some 0) false) []
    [mkRow 7 (some 0) false] [mkRow 7 (some 0) false] [] [131] rfl (by decide) rfl
    (by intro c hc; injection hc with h1 _; subst h1; rfl)

/-- C4: when the remote delete for a reached item fails with a single
recoverable code (144, 179, 34 or 63), the loop tombstones that item in the
store and continues exactly as the loop on the remaining items over the
tombstoned store; and whenever every item's remote outcome is a success or a
single recoverable code, the whole loop finishes without surfacing any
error, i.e. no exception escapes. -/
theorem c4_recoverable_error_tombstones_and_continues :
    (∀ (remote : Nat → Twitforget.DeleteResult) (l : List Nat) (twt : Twitforget.Row)
        (rest : List Twitforget.Row) (cache : Twitforget.Store) (c : Nat),
      twt.id ∉ l →
      remote twt.id = .httpError [c] →
      (c = 144 ∨ c = 179 ∨ c = 34 ∨ c = 63) →
      Twitforget.destroy_tweets remote (some l) false (twt :: rest) cache
        = (twt.id :: (Twitforget.destroy_tweets remote (some l) false rest
            (Twitforget.mark_deleted cache twt.id)).1,
           (Twitforget.destroy_tweets remote (some l) false rest
            (Twitforget.mark_deleted cache twt.id)).2)
      ∧ ∀ r ∈ Twitforget.mark_deleted cache twt.id, r.id = twt.id → r.deleted = true)
    ∧ (∀ (remote : Nat → Twitforget.DeleteResult) (l : List Nat) (dryrun : Bool)
        (items : List Twitforget.Row) (cache : Twitforget.Store),
      (∀ r ∈ items, remote r.id = .ok
          ∨ ∃ c, remote r.id = .httpError [c] ∧ Twitforget.recoverableCode c = true) →
      ∃ s, (Twitforget.destroy_tweets remote (some l) dryrun items cache).2 = .ok s) := by
  constructor
  · intro remote l twt rest cache c hkl herr hc
    have hrec : Twitforget.recoverableCode c = true := by
      rcases hc with rfl | rfl | rfl | rfl <;> rfl
    exact ⟨Twitforget.destroy_step_recov remote l twt rest cache c hkl herr hrec,
      Twitforget.mark_deleted_sets_flag cache twt.id⟩
  · intro remote l dryrun items cache h
    exact Twitforget.destroy_tweets_ok_of_recoverable remote l dryrun items cache h

/-- C4 witness: with a remote failing with the not-found code 144, the one-item
destroy set tombstones the item and finishes as the loop on the empty rest. -/
theorem c4_recoverable_error_tombstones_and_continues_witness :
    Twitforget.destroy_tweets remoteNotFound (some []) false [mkRow 7 (some 0) false]
        [mkRow 7 (some 0) false]
      = (7 :: (Twitforget.destroy_tweets remoteNotFound (some []) false []
          (Twitforget.mark_deleted [mkRow 7 (some 0) false] 7)).1,
         (Twitforget.destroy_tweets remoteNotFound (some []) false []
          (Twitforget.mark_deleted [mkRow 7 (some 0) false] 7)).2)
    ∧ ∀ r ∈ Twitforget.mark_deleted [mkRow 7 (some 0) false] 7, r.id = 7 → r.deleted = true :=
  c4_recoverable_error_tombstones_and_continues.1 remoteNotFound [] (mkRow 7 (some 0) false)
    [] [mkRow 7 (some 0) false] 144 (by decide) rfl (Or.inl rfl)

namespace Dmforget

theorem dm_mark_deleted_sets_flag (cache : DmStore) (tid : Nat) :
    ∀ r ∈ dm_mark_deleted cache tid, r.id = tid → r.deleted = true := by
  intro r hr hid
  rcases List.mem_map.mp hr with ⟨r0, _, rfl⟩
  by_cases h : r0.id = tid
  · simp [h]
  · rw [if_neg h] at hid ⊢
    exact absurd hid h

end Dmforget

/-- C8: in the message-kind destroy loop with dry-run off, an item whose
sender is not the authenticated user and which is not keep-listed is
tombstoned locally and the loop proceeds exactly as the loop on the
remaining items over the tombstoned store — in particular the call log is
that of the remaining items, so no remote delete call is issued for it. -/
theorem c8_foreign_sender_tombstoned_without_remote_call
    (remote : Nat → Twitforget.DeleteResult) (keeplist : Option (List Nat)) (userid : Nat)
    (item : Dmforget.DmRow) (rest : List Dmforget.DmRow) (cache : Dmforget.DmStore)
    (hkl : Dmforget.klMem keeplist item.id = false)
    (hs : item.sender_id ≠ userid) :
    Dmforget.destroy_dms remote keeplist false userid (item :: rest) cache
      = Dmforget.destroy_dms remote keeplist false userid rest
          (Dmforget.dm_mark_deleted cache item.id)
    ∧ ∀ r ∈ Dmforget.dm_mark_deleted cache item.id, r.id = item.id → r.deleted = true := by
  constructor
  · simp [Dmforget.destroy_dms, hkl, hs]
  · exact Dmforget.dm_mark_deleted_sets_flag cache item.id

/-- C8 witness: a dm whose sender 5 is not the authenticated user 1 is
tombstoned locally, and the loop continues on the rest with no remote call. -/
theorem c8_foreign_sender_tombstoned_without_remote_call_witness :
    Dmforget.destroy_dms remoteFatal none false 1 [mkDmRow 3 (some 0) 5 false]
        [mkDmRow 3 (some 0) 5 false]
      = Dmforget.destroy_dms remoteFatal none false 1 []
          (Dmforget.dm_mark_deleted [mkDmRow 3 (some 0) 5 false] 3)
    ∧ ∀ r ∈ Dmforget.dm_mark_deleted [mkDmRow 3 (some 0) 5 false] 3,
        r.id = 3 → r.deleted = true :=
  c8_foreign_sender_tombstoned_without_remote_call remoteFatal none 1
    (mkDmRow 3 (some 0) 5 false) [] [mkDmRow 3 (some 0) 5 false] rfl (by decide)

namespace Twitforget

theorem mem_sqlSort (store : Store) (r : Row) : r ∈ sqlSort store ↔ r ∈ store := by
  simp [sqlSort]

theorem destroy_keepnum_eq_filter (store : Store) (k : Nat) :
    get_destroy_set_keepnum store k none
      = (sqlSort store).filter (fun r => !((topIds store k).contains r.id) && !r.deleted) := rfl

theorem mem_destroy_keepnum (store : Store) (k : Nat) (r : Row) :
    r ∈ get_destroy_set_keepnum store k none
      ↔ r ∈ store ∧ r.deleted = false ∧ r.id ∉ topIds store k := by
  rw [destroy_keepnum_eq_filter, List.mem_filter, mem_sqlSort]
  simp only [Bool.and_eq_true, Bool.not_eq_true']
  constructor
  · rintro ⟨hmem, hc, hd⟩
    refine ⟨hmem, hd, ?_⟩
    simpa using hc
  · rintro ⟨hmem, hd, hc⟩
    refine ⟨hmem, ?_, hd⟩
    simpa using hc

theorem sorted_destroy_keepnum (store : Store) (k : Nat) :
    (get_destroy_set_keepnum store k none).Pairwise rowLe := by
  rw [destroy_keepnum_eq_filter]
  exact (List.sorted_insertionSort rowLe store).filter _

theorem sorted_desc_take_le :
    ∀ (l : List Nat) (k : Nat) (v a : Nat), l.Pairwise (fun x y => y ≤ x) →
      v ∈ l → v ∉ l.take k → a ∈ l.take k → v ≤ a := by
  intro l
  induction l with
  | nil => intro k v a _ hv _ _; cases hv
  | cons x xs ih =>
    intro k v a hp hv hnt hat
    cases k with
    | zero => simp at hat
    | succ k' =>
      rw [List.take_succ_cons] at hnt hat
      rcases List.mem_cons.mp hat with rfl | hat'
      · rcases List.mem_cons.mp hv with rfl | hv'
        · exact absurd (List.mem_cons_self _ _) hnt
        · exact (List.pairwise_cons.mp hp).1 v hv'
      · rcases List.mem_cons.mp hv with rfl | hv'
        · exact absurd (List.mem_cons_self _ _) hnt
        · exact ih k' v a (List.pairwise_cons.mp hp).2 hv'
            (fun hh => hnt (List.mem_cons_of_mem _ hh)) hat'

theorem topIds_eq_take (store : Store) (k : Nat) :
    topIds store k = (((sqlSort store).map (fun r => r.id)).reverse).take k := by
  unfold topIds
  rw [List.map_take, List.map_reverse]

theorem descIds_pairwise (store : Store) :
    (((sqlSort store).map (fun r => r.id)).reverse).Pairwise (fun x y => y ≤ x) := by
  have h : (sqlSort store).Pairwise rowLe := List.sorted_insertionSort rowLe store
  have h2 : ((sqlSort store).map (fun r => r.id)).Pairwise (fun a b : Nat => a ≤ b) :=
    List.Pairwise.map (fun r : Row => r.id) (fun _ _ hab => hab) h
  exact List.pairwise_reverse.mpr h2

theorem destroy_keepnum_lt_topIds (store : Store) (k : Nat) (a : Nat) (r : Row)
    (ha : a ∈ topIds store k) (hr : r ∈ get_destroy_set_keepnum store k none) :
    r.id < a := by
  have hmem := (mem_destroy_keepnum store k r).mp hr
  have hvl : r.id ∈ ((sqlSort store).map (fun r => r.id)).reverse := by
    rw [List.mem_reverse, List.mem_map]
    exact ⟨r, (mem_sqlSort store r).mpr hmem.1, rfl⟩
  have hnt : r.id ∉ (((sqlSort store).map (fun r => r.id)).reverse).take k := by
    rw [← topIds_eq_take]
    exact hmem.2.2
  have hat : a ∈ (((sqlSort store).map (fun r => r.id)).reverse).take k := by
    rw [← topIds_eq_take]
    exact ha
  have hle : r.id ≤ a :=
    sorted_desc_take_le _ k r.id a (descIds_pairwise store) hvl hnt hat
  have hne : r.id ≠ a := by
    intro he
    exact hmem.2.2 (he ▸ ha)
  exact Nat.lt_of_le_of_ne hle hne

end Twitforget

/-- C6: the keep-count policy's destroy set consists exactly of the
non-tombstoned rows whose id is not among the `keepnum` largest ids of the
store, in ascending id order, and every destroy-set id is strictly below
every kept id; in particular, with live ids 1..5 and keepnum 3 the destroy
set is exactly the rows with ids 1 and 2. -/
theorem c6_keepnum_policy :
    (∀ (store : Twitforget.Store) (k : Nat) (r : Twitforget.Row),
        r ∈ Twitforget.get_destroy_set_keepnum store k none
          ↔ r ∈ store ∧ r.deleted = false ∧ r.id ∉ Twitforget.topIds store k)
    ∧ (∀ (store : Twitforget.Store) (k : Nat),
        (Twitforget.get_destroy_set_keepnum store k none).Pairwise Twitforget.rowLe)
    ∧ (∀ (store : Twitforget.Store) (k : Nat) (a : Nat) (r : Twitforget.Row),
        a ∈ Twitforget.topIds store k →
        r ∈ Twitforget.get_destroy_set_keepnum store k none → r.id < a)
    ∧ Twitforget.get_destroy_set_keepnum c6Store 3 none
        = [mkRow 1 (some 10) false, mkRow 2 (some 20) false] := by
  refine ⟨Twitforget.mem_destroy_keepnum, Twitforget.sorted_destroy_keepnum,
    fun store k a r ha hr => Twitforget.destroy_keepnum_lt_topIds store k a r ha hr, ?_⟩
  rfl

/-- C6 witness: id 3 is kept (it is among the 3 largest ids of the example
store) and row 1 is in the destroy set, so its id is strictly below 3. -/
theorem c6_keepnum_policy_witness : (mkRow 1 (some 10) false).id < 3 :=
  c6_keepnum_policy.2.2.1 c6Store 3 3 (mkRow 1 (some 10) false) (by decide) (by decide)

namespace Dmforget

theorem mem_dmSort (store : DmStore) (r : DmRow) : r ∈ dmSort store ↔ r ∈ store := by
  simp [dmSort]

theorem dm_dates_loop_ok (db : Int) (da : Option Int) :
    ∀ (lst : List DmRow) (i : Nat),
      (∀ r ∈ lst, r.created_at.isSome) →
      dm_dates_loop db da none lst i
        = .ok (lst.filter (fun r =>
            match r.created_at with
            | none => false
            | some d => decide (d < db) &&
                (match da with
                 | some a => decide (a < d)
                 | none => true))) := by
  intro lst
  induction lst with
  | nil => intro i _; rfl
  | cons r rest ih =>
    intro i h
    have hr := h r (List.mem_cons_self r rest)
    have hrest : ∀ x ∈ rest, x.created_at.isSome :=
      fun x hx => h x (List.mem_cons_of_mem _ hx)
    cases hca : r.created_at with
    | none => rw [hca] at hr; cases hr
    | some d =>
      by_cases hdb : d < db
      · cases da with
        | none =>
          simp [dm_dates_loop, hca, hdb, Twitforget.dmaxBreak, ih (i + 1) hrest,
            List.filter_cons]
        | some a =>
          by_cases had : a < d
          · simp [dm_dates_loop, hca, hdb, had, Twitforget.dmaxBreak, ih (i + 1) hrest,
              List.filter_cons]
          · simp [dm_dates_loop, hca, hdb, had, Twitforget.dmaxBreak, ih (i + 1) hrest,
              List.filter_cons]
      · simp [dm_dates_loop, hca, hdb, Twitforget.dmaxBreak, ih (i + 1) hrest,
          List.filter_cons]

end Dmforget

/-- C5 counterexample: in the posts variant the date-range query does not
filter out NULL `created_at` rows, so on a store holding one live row with
NULL `created_at` the policy raises a date-parse error instead of returning
an empty destroy set. -/
theorem c5_posts_null_created_at_raises :
    Twitforget.get_destroy_set_dates c5Store 100 none none = .error () := rfl

/-- C5 amended: in the messages (and likes) variant, whose SQL query requires
`created_at IS NOT NULL`, the date-range destroy set contains exactly the
non-tombstoned rows with a known `created_at` strictly before `date_before`
and, when `date_after` is given, strictly after it, in ascending id order,
and NULL-dated rows never match and never cause an error; the posts variant
instead raises on a scanned NULL-dated row. -/
theorem c5_date_range_policy (store : Dmforget.DmStore) (db : Int) (da : Option Int) :
    ∃ l, Dmforget.get_destroy_set_dates store db da none = .ok l
      ∧ (∀ r, r ∈ l ↔ r ∈ store ∧ r.deleted = false
          ∧ ∃ d, r.created_at = some d ∧ d < db ∧ (∀ a, da = some a → a < d))
      ∧ l.Pairwise Dmforget.dmRowLe := by
  have hq : ∀ r ∈ (Dmforget.dmSort store).filter
      (fun r => !r.deleted && r.created_at.isSome), r.created_at.isSome := by
    intro r hr
    have := (List.mem_filter.mp hr).2
    rw [Bool.and_eq_true] at this
    exact this.2
  refine ⟨_, Dmforget.dm_dates_loop_ok db da _ 0 hq, ?_, ?_⟩
  · intro r
    rw [List.mem_filter, List.mem_filter, Dmforget.mem_dmSort]
    constructor
    · rintro ⟨⟨hmem, hql⟩, hp⟩
      rw [Bool.and_eq_true, Bool.not_eq_true'] at hql
      refine ⟨hmem, hql.1, ?_⟩
      cases hca : r.created_at with
      | none => rw [hca] at hql; cases hql.2
      | some d =>
        rw [hca] at hp
        simp only [Bool.and_eq_true, decide_eq_true_eq] at hp
        refine ⟨d, rfl, hp.1, ?_⟩
        intro a ha
        rw [ha] at hp
        simpa using hp.2
    · rintro ⟨hmem, hdel, d, hca, hdb, hda⟩
      refine ⟨⟨hmem, ?_⟩, ?_⟩
      · rw [Bool.and_eq_true, Bool.not_eq_true', hca]
        exact ⟨hdel, rfl⟩
      · rw [hca]
        simp only [Bool.and_eq_true, decide_eq_true_eq]
        refine ⟨hdb, ?_⟩
        cases da with
        | none => rfl
        | some a => simpa using hda a rfl
  · exact ((List.sorted_insertionSort Dmforget.dmRowLe store).filter _).filter _

/-- C5 witness: the characterization instantiated at a one-row store with a
known date 5, `date_before` 10 and no `date_after`. -/
theorem c5_date_range_policy_witness :
    ∃ l, Dmforget.get_destroy_set_dates [mkDmRow 1 (some 5) 5 false] 10 none none = .ok l
      ∧ (∀ r, r ∈ l ↔ r ∈ [mkDmRow 1 (some 5) 5 false] ∧ r.deleted = false
          ∧ ∃ d, r.created_at = some d ∧ d < 10 ∧ (∀ a, (none : Option Int) = some a → a < d))
      ∧ l.Pairwise Dmforget.dmRowLe :=
  c5_date_range_policy [mkDmRow 1 (some 5) 5 false] 10 none

namespace Twitforget

theorem listMin_isSome (a : Nat) (as : List Nat) : ∃ m, listMin (a :: as) = some m := by
  unfold listMin
  cases listMin as <;> exact ⟨_, rfl⟩

theorem listMin_spec :
    ∀ (l : List Nat) (m : Nat), listMin l = some m → m ∈ l ∧ ∀ x ∈ l, m ≤ x := by
  intro l
  induction l with
  | nil => intro m h; cases h
  | cons x xs ih =>
    intro m h
    unfold listMin at h
    cases hxs : listMin xs with
    | none =>
      rw [hxs] at h
      injection h with h
      subst h
      refine ⟨List.mem_cons_self _ _, ?_⟩
      intro y hy
      rcases List.mem_cons.mp hy with rfl | hy'
      · exact Nat.le_refl _
      · cases xs with
        | nil => cases hy'
        | cons a as =>
          obtain ⟨m', hm'⟩ := listMin_isSome a as
          rw [hm'] at hxs
          cases hxs
    | some mx =>
      rw [hxs] at h
      injection h with h
      subst h
      obtain ⟨hmem, hle⟩ := ih mx hxs
      constructor
      · rcases min_choice x mx with hmin | hmin
        · rw [hmin]; exact List.mem_cons_self _ _
        · rw [hmin]; exact List.mem_cons_of_mem _ hmem
      · intro y hy
        rcases List.mem_cons.mp hy with rfl | hy'
        · exact Nat.min_le_left _ _
        · exact Nat.le_trans (Nat.min_le_right _ _) (hle y hy')

theorem listMin_le_of_mem (l : List Nat) (x : Nat) (hx : x ∈ l) :
    ∃ m, listMin l = some m ∧ m ≤ x := by
  cases l with
  | nil => cases hx
  | cons a as =>
    obtain ⟨m, hm⟩ := listMin_isSome a as
    exact ⟨m, hm, (listMin_spec (a :: as) m hm).2 x hx⟩

theorem mem_save_tweets_of_mem {u : String} :
    ∀ (tweets : List TweetIn) (store : Store) (r : Row),
      r ∈ store → r ∈ save_tweets store u tweets := by
  intro tweets
  induction tweets with
  | nil => intro store r h; exact h
  | cons t ts ih =>
    intro store r h
    exact ih _ r (mem_insertOrIgnore_of_mem h)

theorem save_tweets_ne_nil {u : String} :
    ∀ (tweets : List TweetIn) (store : Store), store ≠ [] → save_tweets store u tweets ≠ [] := by
  intro tweets
  induction tweets with
  | nil => intro store h; exact h
  | cons t ts ih =>
    intro store h
    apply ih
    show insertOrIgnore store (toRow u t) ≠ []
    unfold insertOrIgnore
    split
    · exact h
    · intro hc
      simp at hc

theorem save_tweets_cons_ne_nil (u : String) (t : TweetIn) (ts : List TweetIn) (store : Store) :
    save_tweets store u (t :: ts) ≠ [] := by
  show save_tweets (insertOrIgnore store (toRow u t)) u ts ≠ []
  apply save_tweets_ne_nil
  unfold insertOrIgnore
  split
  · next hany =>
    intro hc
    subst hc
    simp at hany
  · intro hc
    simp at hc

theorem minLive_persist (cache : Store) (ign : List Nat) (u : String) (page : List TweetIn)
    (mv : Nat) (h : minLive cache ign = some mv) :
    ∃ mv', minLive (save_tweets cache u page) ign = some mv' ∧ mv' ≤ mv := by
  obtain ⟨hmem, _⟩ := listMin_spec _ mv h
  rcases List.mem_map.mp hmem with ⟨r, hrf, hrid⟩
  obtain ⟨hrc, hrp⟩ := List.mem_filter.mp hrf
  have hr2 : r ∈ (save_tweets cache u page).filter
      (fun r => !r.deleted && !(ign.contains r.id)) :=
    List.mem_filter.mpr ⟨mem_save_tweets_of_mem page cache r hrc, hrp⟩
  have hid2 : r.id ∈ ((save_tweets cache u page).filter
      (fun r => !r.deleted && !(ign.contains r.id))).map (fun r => r.id) :=
    List.mem_map.mpr ⟨r, hr2, rfl⟩
  obtain ⟨mv', hmv', hle⟩ := listMin_le_of_mem _ r.id hid2
  exact ⟨mv', hmv', by rw [← hrid]; exact hle⟩

theorem fetch_step_done (remote : Nat → Option Int → List TweetIn) (u : String)
    (ign : List Nat) (fuel i : Nat) (cache : Store) (known : Option Nat)
    (hne : cache ≠ []) (hk : known = minLive cache ign) :
    get_old_tweets_fuel remote u (some ign) (fuel + 1) i cache known = some (.done cache) := by
  have hlen : ¬ cache.length = 0 := by simpa using hne
  simp [get_old_tweets_fuel, hlen, get_min_id, hk]

theorem fetch_step_none_crash (remote : Nat → Option Int → List TweetIn) (u : String)
    (ign : List Nat) (fuel i : Nat) (cache : Store) (known : Option Nat)
    (hne : cache ≠ []) (hm : minLive cache ign = none) (hk : known ≠ none) :
    get_old_tweets_fuel remote u (some ign) (fuel + 1) i cache known = some .crash := by
  have hlen : ¬ cache.length = 0 := by simpa using hne
  simp [get_old_tweets_fuel, hlen, get_min_id, hm, hk]

theorem fetch_step_empty_page (remote : Nat → Option Int → List TweetIn) (u : String)
    (ign : List Nat) (fuel i : Nat) (cache : Store) (known : Option Nat) (mv : Nat)
    (hne : cache ≠ []) (hm : minLive cache ign = some mv) (hk : known ≠ some mv)
    (hp : remote i (some ((mv : Int) - 1)) = []) :
    get_old_tweets_fuel remote u (some ign) (fuel + 1) i cache known = some (.done cache) := by
  have hlen : ¬ cache.length = 0 := by simpa using hne
  simp [get_old_tweets_fuel, hlen, get_min_id, hm, hk, hp]

theorem fetch_step_advance (remote : Nat → Option Int → List TweetIn) (u : String)
    (ign : List Nat) (fuel i : Nat) (cache : Store) (known : Option Nat) (mv : Nat)
    (hne : cache ≠ []) (hm : minLive cache ign = some mv) (hk : known ≠ some mv)
    (hp : remote i (some ((mv : Int) - 1)) ≠ []) :
    get_old_tweets_fuel remote u (some ign) (fuel + 1) i cache known
      = get_old_tweets_fuel remote u (some ign) fuel (i + 1)
          (save_tweets cache u (remote i (some ((mv : Int) - 1)))) (some mv) := by
  have hlen : ¬ cache.length = 0 := by simpa using hne
  simp [get_old_tweets_fuel, hlen, get_min_id, hm, hk, hp]

theorem fetch_step_first_fill (remote : Nat → Option Int → List TweetIn) (u : String)
    (ign : List Nat) (fuel i : Nat) (known : Option Nat)
    (hp : remote i none ≠ []) :
    get_old_tweets_fuel remote u (some ign) (fuel + 1) i [] known
      = get_old_tweets_fuel remote u (some ign) fuel (i + 1)
          (save_tweets [] u (remote i none)) known := by
  simp [get_old_tweets_fuel, hp]

end Twitforget

namespace Twitforget

theorem fetch_core (remote : Nat → Option Int → List TweetIn) (u : String) (ign : List Nat) :
    ∀ (b k : Nat), k ≤ b → ∀ (i : Nat) (cache : Store), cache ≠ [] →
      (∀ mv, minLive cache ign = some mv → mv ≤ k) →
      ∃ fuel r, get_old_tweets_fuel remote u (some ign) fuel i cache (some k) = some r := by
  intro b
  induction b with
  | zero =>
    intro k hkb i cache hne hbnd
    cases hm : minLive cache ign with
    | none =>
      exact ⟨1, .crash, fetch_step_none_crash remote u ign 0 i cache (some k) hne hm
        (by simp)⟩
    | some mv =>
      by_cases hkm : k = mv
      · exact ⟨1, .done cache, fetch_step_done remote u ign 0 i cache (some k) hne
          (by rw [hm, hkm])⟩
      · have hmvlt : mv < k :=
          Nat.lt_of_le_of_ne (hbnd mv hm) (fun h => hkm h.symm)
        exact absurd (Nat.lt_of_lt_of_le hmvlt hkb) (Nat.not_lt_zero mv)
  | succ b ih =>
    intro k hkb i cache hne hbnd
    cases hm : minLive cache ign with
    | none =>
      exact ⟨1, .crash, fetch_step_none_crash remote u ign 0 i cache (some k) hne hm
        (by simp)⟩
    | some mv =>
      by_cases hkm : k = mv
      · exact ⟨1, .done cache, fetch_step_done remote u ign 0 i cache (some k) hne
          (by rw [hm, hkm])⟩
      · have hk' : (some k : Option Nat) ≠ some mv := by
          intro hc
          exact hkm (Option.some.injEq .. ▸ hc)
        by_cases hp : remote i (some ((mv : Int) - 1)) = []
        · exact ⟨1, .done cache, fetch_step_empty_page remote u ign 0 i cache (some k) mv
            hne hm hk' hp⟩
        · have hmvlt : mv < k :=
            Nat.lt_of_le_of_ne (hbnd mv hm) (fun h => hkm h.symm)
          have hne' : save_tweets cache u (remote i (some ((mv : Int) - 1))) ≠ [] :=
            save_tweets_ne_nil _ cache hne
          have hbnd' : ∀ mv'',
              minLive (save_tweets cache u (remote i (some ((mv : Int) - 1)))) ign = some mv''
              → mv'' ≤ mv := by
            intro mv'' h''
            obtain ⟨mv', hmv', hle⟩ := minLive_persist cache ign u _ mv hm
            rw [hmv'] at h''
            injection h'' with he
            rw [← he]
            exact hle
          have hmvb : mv ≤ b := Nat.le_of_lt_succ (Nat.lt_of_lt_of_le hmvlt hkb)
          obtain ⟨fuel, r, hrec⟩ := ih mv hmvb (i + 1) _ hne' hbnd'
          refine ⟨fuel + 1, r, ?_⟩
          rw [fetch_step_advance remote u ign fuel i cache (some k) mv hne hm hk' hp]
          exact hrec

theorem fetch_nonempty_terminates (remote : Nat → Option Int → List TweetIn) (u : String)
    (ign : List Nat) (i : Nat) (cache : Store) (known : Option Nat) (hne : cache ≠ []) :
    ∃ fuel r, get_old_tweets_fuel remote u (some ign) fuel i cache known = some r := by
  by_cases hk : known = minLive cache ign
  · exact ⟨1, .done cache, fetch_step_done remote u ign 0 i cache known hne hk⟩
  · cases hm : minLive cache ign with
    | none =>
      refine ⟨1, .crash, fetch_step_none_crash remote u ign 0 i cache known hne hm ?_⟩
      intro hc
      rw [hc, hm] at hk
      exact hk rfl
    | some mv =>
      have hk' : known ≠ some mv := by
        intro hc
        rw [hc, hm] at hk
        exact hk rfl
      by_cases hp : remote i (some ((mv : Int) - 1)) = []
      · exact ⟨1, .done cache, fetch_step_empty_page remote u ign 0 i cache known mv
          hne hm hk' hp⟩
      · have hne' : save_tweets cache u (remote i (some ((mv : Int) - 1))) ≠ [] :=
          save_tweets_ne_nil _ cache hne
        have hbnd' : ∀ mv'',
            minLive (save_tweets cache u (remote i (some ((mv : Int) - 1)))) ign = some mv''
            → mv'' ≤ mv := by
          intro mv'' h''
          obtain ⟨mv', hmv', hle⟩ := minLive_persist cache ign u _ mv hm
          rw [hmv'] at h''
          injection h'' with he
          rw [← he]
          exact hle
        obtain ⟨fuel, r, hrec⟩ := fetch_core remote u ign mv mv (Nat.le_refl mv) (i + 1) _
          hne' hbnd'
        refine ⟨fuel + 1, r, ?_⟩
        rw [fetch_step_advance remote u ign fuel i cache known mv hne hm hk' hp]
        exact hrec

theorem fetch_older_terminates (remote : Nat → Option Int → List TweetIn) (u : String)
    (ign : List Nat) (i : Nat) (cache : Store) (known : Option Nat) :
    ∃ fuel r, get_old_tweets_fuel remote u (some ign) fuel i cache known = some r := by
  cases cache with
  | nil =>
    by_cases hp : remote i none = []
    · exact ⟨1, .done [], by simp [get_old_tweets_fuel, hp]⟩
    · have hne : save_tweets [] u (remote i none) ≠ [] := by
        rcases hq : remote i none with _ | ⟨t, ts⟩
        · exact absurd hq hp
        · exact save_tweets_cons_ne_nil u t ts []
      obtain ⟨fuel, r, hrec⟩ := fetch_nonempty_terminates remote u ign (i + 1)
        (save_tweets [] u (remote i none)) known hne
      refine ⟨fuel + 1, r, ?_⟩
      rw [fetch_step_first_fill remote u ign fuel i known hp]
      exact hrec
  | cons a rest =>
    exact fetch_nonempty_terminates remote u ign i (a :: rest) known (by simp)

end Twitforget

/-- C7: the fetch-older loop stops in the very step in which the recomputed
minimum live id equals the one of the previous iteration (the floor repeats),
and in the step in which the remote returns an empty page; and for every
remote behaviour the loop runs out of work in finitely many iterations —
some finite fuel suffices — because a non-repeating floor strictly
decreases. -/
theorem c7_fetch_older_loop_terminates :
    (∀ (remote : Nat → Option Int → List Twitforget.TweetIn) (u : String) (ign : List Nat)
        (fuel i : Nat) (cache : Twitforget.Store) (known : Option Nat),
      cache ≠ [] → known = Twitforget.minLive cache ign →
      Twitforget.get_old_tweets_fuel remote u (some ign) (fuel + 1) i cache known
        = some (.done cache))
    ∧ (∀ (remote : Nat → Option Int → List Twitforget.TweetIn) (u : String) (ign : List Nat)
        (fuel i : Nat) (cache : Twitforget.Store) (known : Option Nat) (mv : Nat),
      cache ≠ [] → Twitforget.minLive cache ign = some mv → known ≠ some mv →
      remote i (some ((mv : Int) - 1)) = [] →
      Twitforget.get_old_tweets_fuel remote u (some ign) (fuel + 1) i cache known
        = some (.done cache))
    ∧ (∀ (remote : Nat → Option Int → List Twitforget.TweetIn) (u : String) (ign : List Nat)
        (i : Nat) (cache : Twitforget.Store) (known : Option Nat),
      ∃ fuel r, Twitforget.get_old_tweets_fuel remote u (some ign) fuel i cache known
        = some r) :=
  ⟨Twitforget.fetch_step_done, Twitforget.fetch_step_empty_page,
    Twitforget.fetch_older_terminates⟩

/-- C7 witness: on a one-row cache whose minimum live id 1 equals the previous
floor, one step of the loop stops and returns the cache unchanged. -/
theorem c7_fetch_older_loop_terminates_witness :
    Twitforget.get_old_tweets_fuel remoteEmptyPages "user" (some []) 1 0
        [mkRow 1 (some 0) false] (some 1)
      = some (.done [mkRow 1 (some 0) false]) :=
  c7_fetch_older_loop_terminates.1 remoteEmptyPages "user" [] 0 0
    [mkRow 1 (some 0) false] (some 1) (by decide) rfl
